import Mathlib

/-!
Verification of the Interpreter (arithmetic and boolean expression
evaluators with their parsers) and Memento (snapshot history managers)
components of the design-patterns repository, as a shallow embedding.
Numbers are modelled as rationals (all values arising in the verified
scenarios are exactly representable); fallible operations return
`Except`; the mutable token array of the parser becomes explicit state
passing; the mutable cursor-based history becomes a record threaded
through the operations.
-/

namespace Arith

/-- Errors raised by the arithmetic interpreter and parser
(`Variable ... not defined`, `Division by zero`, `Empty expression`). -/
inductive AErr where
  | undefinedVariable (name : String)
  | divisionByZero
  | emptyExpression
deriving DecidableEq, Repr

/-- Arithmetic expression trees: `NumberExpression`, `VariableExpression`,
`AddExpression`, `SubtractExpression`, `MultiplyExpression`,
`DivideExpression` from the source. -/
inductive AExpr where
  | num (value : ℚ)
  | vr (name : String)
  | add (l r : AExpr)
  | sub (l r : AExpr)
  | mul (l r : AExpr)
  | div (l r : AExpr)
deriving DecidableEq, Repr

/-- The `Context` class: a map from variable names to numbers,
modelled as an association list (`setValue` prepends/overwrites;
the verified scenarios use distinct keys). -/
abbrev Ctx := List (String × ℚ)

/-- `Context.getValue`: look the variable up by exact key equality,
failing with `Variable <name> not defined` when absent (the verified
scenarios bind each key once, so first-match lookup agrees with the
`Map`). -/
def getValue : Ctx → String → Except AErr ℚ
  | [], name => .error (.undefinedVariable name)
  | (k, v) :: rest, name => if k = name then .ok v else getValue rest name

/-- `interpret(context)` of each expression class. Evaluation order
follows the source: binary nodes evaluate the left operand first,
except `DivideExpression.interpret`, which evaluates the divisor
(right operand) first and raises `Division by zero` before ever
touching the left operand. -/
def interpret : AExpr → Ctx → Except AErr ℚ
  | .num v, _ => .ok v
  | .vr n, ctx => getValue ctx n
  | .add l r, ctx => do
      let a ← interpret l ctx
      let b ← interpret r ctx
      .ok (a + b)
  | .sub l r, ctx => do
      let a ← interpret l ctx
      let b ← interpret r ctx
      .ok (a - b)
  | .mul l r, ctx => do
      let a ← interpret l ctx
      let b ← interpret r ctx
      .ok (a * b)
  | .div l r, ctx => do
      let d ← interpret r ctx
      if d = 0 then
        .error .divisionByZero
      else do
        let a ← interpret l ctx
        .ok (a / d)

end Arith

namespace Arith

/-- Test whether a character is one of the operator characters that
the regular expression of `tokenize` matches. -/
def isOpChar (c : Char) : Bool :=
  c = '(' || c = ')' || c = '+' || c = '-' || c = '*' || c = '/'

/-- The replace step of `tokenize` (its regular expression substitutes every operator character by itself surrounded with spaces):
surround every operator character with spaces. -/
def expandOps : List Char → List Char
  | [] => []
  | c :: rest =>
      if isOpChar c then ' ' :: c :: ' ' :: expandOps rest
      else c :: expandOps rest

/-- JavaScript `String.prototype.trim`: drop leading and trailing
whitespace. -/
def trimChars (l : List Char) : List Char :=
  ((l.dropWhile Char.isWhitespace).reverse.dropWhile Char.isWhitespace).reverse

/-- Split on runs of whitespace (`split(/\s+/)` applied to a string
with no leading or trailing whitespace); the first argument
accumulates the current token in reverse. -/
def splitWsAux : List Char → List Char → List (List Char)
  | acc, [] => if acc.isEmpty then [] else [acc.reverse]
  | acc, c :: rest =>
      if c.isWhitespace then
        if acc.isEmpty then splitWsAux [] rest
        else acc.reverse :: splitWsAux [] rest
      else splitWsAux (c :: acc) rest

/-- `ExpressionParser.tokenize`: space out the operator characters, trim,
then split on whitespace runs. When the trimmed string is empty,
JavaScript `"".split(/\s+/)` yields `[""]` (a one-element array holding
the empty string), not an empty array; the embedding reproduces that. -/
def tokenize (expression : String) : List String :=
  let t := trimChars (expandOps expression.toList)
  if t.isEmpty then [""]
  else (splitWsAux [] t).map fun cs => String.mk cs

/-- Numeric value of a digit string. -/
def digitsVal (l : List Char) : Nat :=
  l.foldl (fun acc c => acc * 10 + (c.toNat - 48)) 0

/-- JavaScript `Number(token)` restricted to the token shapes the
tokenizer can produce: the empty string converts to `0`, a digit string
to its value, and anything containing a non-digit (variable names,
parentheses, operator characters) to `NaN`, encoded as `none`. -/
def jsToNumber (t : String) : Option ℚ :=
  if t.toList.isEmpty then some 0
  else if t.toList.all Char.isDigit then some ((digitsVal t.toList : ℕ) : ℚ)
  else none

/-- `ExpressionParser.parseTerm`: a numeric token (per `Number`) becomes a
`NumberExpression`, anything else a `VariableExpression`. The `none` case
models `tokens.shift()` on an exhausted array: `undefined` reaches
`parseTerm`, `Number(undefined)` is `NaN`, and the resulting
`VariableExpression` carries `undefined` as its name. -/
def parseTerm (token : Option String) : AExpr :=
  match token with
  | none => .vr "undefined"
  | some t =>
      match jsToNumber t with
      | some v => .num v
      | none => .vr t

/-- The `while` loop of `parseMultiplyDivide`, with explicit fuel; every
iteration consumes at least the operator token, so fuel equal to the
list length is always sufficient. -/
def mulDivLoop : Nat → AExpr → List String → AExpr × List String
  | 0, left, tokens => (left, tokens)
  | fuel + 1, left, tokens =>
      match tokens with
      | op :: rest =>
          if op = "*" || op = "/" then
            let right := parseTerm rest.head?
            let left' := if op = "*" then AExpr.mul left right else AExpr.div left right
            mulDivLoop fuel left' rest.tail
          else (left, tokens)
      | [] => (left, tokens)

/-- `ExpressionParser.parseMultiplyDivide`. -/
def parseMultiplyDivide (tokens : List String) : AExpr × List String :=
  mulDivLoop tokens.length (parseTerm tokens.head?) tokens.tail

/-- The `while` loop of `parseAddSubtract`, with explicit fuel; every
iteration consumes at least the operator token and `parseMultiplyDivide`
returns a suffix of its input, so fuel equal to the list length is
always sufficient. -/
def addSubLoop : Nat → AExpr → List String → AExpr × List String
  | 0, left, tokens => (left, tokens)
  | fuel + 1, left, tokens =>
      match tokens with
      | op :: rest =>
          if op = "+" || op = "-" then
            let pr := parseMultiplyDivide rest
            let left' := if op = "+" then AExpr.add left pr.1 else AExpr.sub left pr.1
            addSubLoop fuel left' pr.2
          else (left, tokens)
      | [] => (left, tokens)

/-- `ExpressionParser.parseAddSubtract`. -/
def parseAddSubtract (tokens : List String) : AExpr × List String :=
  let pr := parseMultiplyDivide tokens
  addSubLoop pr.2.length pr.1 pr.2

/-- `ExpressionParser.parseExpression`: raise `Empty expression` on an
empty token array, otherwise parse; leftover tokens are discarded, as in
the source. -/
def parseExpression (tokens : List String) : Except AErr AExpr :=
  if tokens.length = 0 then .error .emptyExpression
  else .ok (parseAddSubtract tokens).1

/-- `ExpressionParser.parse`. -/
def parse (expression : String) : Except AErr AExpr :=
  parseExpression (tokenize expression)

end Arith

deriving instance DecidableEq for Except

namespace BoolI

/-- Error raised by the boolean interpreter
(`Boolean variable ... not defined`). -/
inductive BErr where
  | undefinedVariable (name : String)
deriving DecidableEq, Repr

/-- Boolean expression trees: `BooleanConstantExpression`,
`BooleanVariableExpression`, `AndExpression`, `OrExpression`,
`NotExpression` from the source. -/
inductive BExpr where
  | constb (value : Bool)
  | vrb (name : String)
  | andb (l r : BExpr)
  | orb (l r : BExpr)
  | notb (e : BExpr)
deriving DecidableEq, Repr

/-- The `BooleanContext` class, modelled as an association list. -/
abbrev BCtx := List (String × Bool)

/-- `BooleanContext.getVariable`: look the variable up by exact key
equality, failing when absent. -/
def getVariable : BCtx → String → Except BErr Bool
  | [], name => .error (.undefinedVariable name)
  | (k, v) :: rest, name => if k = name then .ok v else getVariable rest name

/-- `interpret(context)` of each boolean expression class. `AndExpression`
and `OrExpression` use JavaScript `&&`/`||`, which short-circuit: the
right operand is evaluated only when the left operand does not already
decide the result. -/
def interpret : BExpr → BCtx → Except BErr Bool
  | .constb v, _ => .ok v
  | .vrb n, ctx => getVariable ctx n
  | .andb l r, ctx => do
      let a ← interpret l ctx
      if a then interpret r ctx else .ok false
  | .orb l r, ctx => do
      let a ← interpret l ctx
      if a then .ok true else interpret r ctx
  | .notb e, ctx => do
      let a ← interpret e ctx
      .ok (!a)

/-- `BooleanExpressionParser.findTopLevelOperator`: scan left to right,
tracking parenthesis depth, and return the first index at depth zero
where the operator occurs; the scan stops once fewer characters remain
than the operator is long (the loop bound of the source). -/
def findTopLevelOpAux (op : List Char) : Nat → Int → List Char → Option Nat
  | _, _, [] => none
  | i, depth, c :: rest =>
      if (c :: rest).length < op.length then none
      else if c = '(' then findTopLevelOpAux op (i + 1) (depth + 1) rest
      else if c = ')' then findTopLevelOpAux op (i + 1) (depth - 1) rest
      else if depth == 0 && op.isPrefixOf (c :: rest) then some i
      else findTopLevelOpAux op (i + 1) depth rest

/-- The counting loop of `isCompletelyWrapped`: walk every character
except the final one, adjusting the parenthesis count; fail as soon as
the count returns to zero, and succeed when the walk ends at count one. -/
def wrapScanAux : Int → List Char → Bool
  | count, [] => count == 1
  | count, c :: rest =>
      let count' := if c = '(' then count + 1 else if c = ')' then count - 1 else count
      if count' == 0 then false else wrapScanAux count' rest

/-- `BooleanExpressionParser.isCompletelyWrapped`: the expression starts
with `(`, ends with `)`, and the opening parenthesis is not closed before
the final character. -/
def isCompletelyWrapped (e : List Char) : Bool :=
  if ['('].isPrefixOf e && [')'].isSuffixOf e then wrapScanAux 0 e.dropLast
  else false

/-- `BooleanExpressionParser.parse`, with explicit fuel. At every level the
source first normalizes (trim + `toUpperCase`), then checks the constants,
then a leading `NOT ` (before any operator search), then a top-level
` OR `, then a top-level ` AND `, then fully-wrapped parentheses, and
otherwise builds a variable from the lowercased text. Each recursive call
receives a strictly shorter string, so fuel exceeding the input length is
never exhausted; the fuel-0 value is arbitrary. -/
def parseBoolAux : Nat → List Char → BExpr
  | 0, _ => .constb false
  | fuel + 1, s =>
      let e := (Arith.trimChars s).map Char.toUpper
      if e = "TRUE".toList then .constb true
      else if e = "FALSE".toList then .constb false
      else if "NOT ".toList.isPrefixOf e then .notb (parseBoolAux fuel (e.drop 4))
      else
        match findTopLevelOpAux " OR ".toList 0 0 e with
        | some i => .orb (parseBoolAux fuel (e.take i)) (parseBoolAux fuel (e.drop (i + 4)))
        | none =>
            match findTopLevelOpAux " AND ".toList 0 0 e with
            | some i => .andb (parseBoolAux fuel (e.take i)) (parseBoolAux fuel (e.drop (i + 5)))
            | none =>
                if isCompletelyWrapped e then parseBoolAux fuel ((e.drop 1).dropLast)
                else .vrb (String.mk (e.map Char.toLower))

/-- `BooleanExpressionParser.parse` on a string. -/
def parseBool (expression : String) : BExpr :=
  parseBoolAux (expression.length + 1) expression.toList

end BoolI

namespace Doc

/-- The nested `formatting` record of `DocumentState`. -/
structure Formatting where
  isBold : Bool
  isItalic : Bool
  fontSize : Nat
  fontFamily : String
deriving DecidableEq, Repr

/-- The `DocumentState` interface (content, cursor position, selection
length, formatting), here as a pure value; the aliasing behaviour of the
nested `formatting` object is studied separately in the store-based
model below. -/
structure DocumentState where
  content : String
  cursorPosition : Nat
  selectionLength : Nat
  formatting : Formatting
deriving DecidableEq, Repr

/-- The state installed by the `TextDocument` constructor. -/
def initialDocument (initialContent : String) : DocumentState :=
  { content := initialContent
    cursorPosition := 0
    selectionLength := 0
    formatting :=
      { isBold := false, isItalic := false, fontSize := 12, fontFamily := "Arial" } }

/-- `TextDocument.type`: insert text at the cursor, replacing the current
selection, then advance the cursor past the inserted text and clear the
selection. -/
def typeText (d : DocumentState) (text : String) : DocumentState :=
  { d with
    content :=
      String.mk (d.content.toList.take d.cursorPosition ++ text.toList ++
        d.content.toList.drop (d.cursorPosition + d.selectionLength))
    cursorPosition := d.cursorPosition + text.length
    selectionLength := 0 }

/-- The `DocumentHistory` caretaker: the snapshot sequence (each snapshot
being the deep-copied `DocumentState` of its `Memento`), the cursor, and
the size bound. The cursor is an integer because the constructor starts
it at `-1`. The live `TextDocument` is threaded alongside as an explicit
value. -/
structure DocumentHistory where
  mementos : List DocumentState
  currentIndex : Int
  maxHistorySize : Nat
deriving DecidableEq, Repr

/-- `DocumentHistory.saveState`: truncate the forward history when the
cursor is not at the last entry, append a snapshot of the document,
place the cursor on the new last entry, and evict the oldest entry
(shifting the cursor down) when the bound is exceeded. -/
def saveState (h : DocumentHistory) (d : DocumentState) : DocumentHistory :=
  let ms :=
    if h.currentIndex < (h.mementos.length : Int) - 1 then
      h.mementos.take (h.currentIndex + 1).toNat
    else h.mementos
  let ms := ms ++ [d]
  if (ms.length : Int) > (h.maxHistorySize : Int) then
    { h with mementos := ms.tail, currentIndex := (ms.length : Int) - 2 }
  else
    { h with mementos := ms, currentIndex := (ms.length : Int) - 1 }

/-- `TextDocument.restoreFromMemento` applied to `mementos[currentIndex]`:
the document becomes the deep copy of the addressed snapshot. An
out-of-range index would make the source throw on `undefined`; the
invariant below shows the reachable states never do, and the embedding
leaves the document unchanged there. -/
def restoreFromHistory (h : DocumentHistory) (d : DocumentState) : DocumentState :=
  match h.mementos[h.currentIndex.toNat]? with
  | some m => m
  | none => d

/-- `DocumentHistory.undo`: when the cursor is positive, move it one step
back and restore that snapshot, returning `true`; otherwise do nothing
and return `false`. -/
def undo (h : DocumentHistory) (d : DocumentState) :
    (DocumentHistory × DocumentState) × Bool :=
  if 0 < h.currentIndex then
    let h' := { h with currentIndex := h.currentIndex - 1 }
    ((h', restoreFromHistory h' d), true)
  else ((h, d), false)

/-- `DocumentHistory.redo`: when the cursor is before the last entry, move
it one step forward and restore that snapshot, returning `true`;
otherwise do nothing and return `false`. -/
def redo (h : DocumentHistory) (d : DocumentState) :
    (DocumentHistory × DocumentState) × Bool :=
  if h.currentIndex < (h.mementos.length : Int) - 1 then
    let h' := { h with currentIndex := h.currentIndex + 1 }
    ((h', restoreFromHistory h' d), true)
  else ((h, d), false)

/-- `DocumentHistory.canUndo`. -/
def canUndo (h : DocumentHistory) : Bool :=
  decide (0 < h.currentIndex)

/-- `DocumentHistory.canRedo`. -/
def canRedo (h : DocumentHistory) : Bool :=
  decide (h.currentIndex < (h.mementos.length : Int) - 1)

/-- `DocumentHistory.getHistorySize`. -/
def getHistorySize (h : DocumentHistory) : Nat :=
  h.mementos.length

/-- The `DocumentHistory` constructor: store the document and the bound,
start with no snapshots and cursor `-1`, then immediately `saveState()`
the initial document state. -/
def mkHistory (d : DocumentState) (maxHistorySize : Nat) : DocumentHistory :=
  saveState { mementos := [], currentIndex := -1, maxHistorySize := maxHistorySize } d

/-- Configurations `(history, document, seen)` reachable from construction
by any sequence of document mutations, `saveState`, `undo` and `redo`;
`seen` is the ghost trace of every state the document has held since
construction (newest first). -/
inductive Reachable : DocumentHistory → DocumentState → List DocumentState → Prop where
  | init (d : DocumentState) (maxHistorySize : Nat) :
      Reachable (mkHistory d maxHistorySize) d [d]
  | mutate {h d seen} (d' : DocumentState) :
      Reachable h d seen → Reachable h d' (d' :: seen)
  | save {h d seen} :
      Reachable h d seen → Reachable (saveState h d) d seen
  | undoStep {h d seen} :
      Reachable h d seen → Reachable (undo h d).1.1 (undo h d).1.2 seen
  | redoStep {h d seen} :
      Reachable h d seen → Reachable (redo h d).1.1 (redo h d).1.2 seen

end Doc

namespace Doc

/-- Concrete sample documents for witnesses: a fresh empty document and
the same document after typing `"X"`. -/
def exampleDoc : DocumentState := initialDocument ""

/-- The sample document with content `"X"` (the state after typing). -/
def exampleDocX : DocumentState := typeText exampleDoc "X"

end Doc

namespace Care

/-- Outcome of `Caretaker.undo`: nothing to restore, a successful
restoration to the given snapshot, or a failed (throwing) restoration
attempt on the given snapshot, caught by the caretaker. -/
inductive UndoOutcome (T : Type) where
  | empty
  | restored (m : T)
  | failed (m : T)
deriving DecidableEq, Repr

/-- `Caretaker.undo` over the memento list (oldest first, newest last, as
in the source array) and an oracle `ok` telling whether
`originator.restore` succeeds on a memento (the source wraps the call in
`try`/`catch`). With no mementos nothing happens; with exactly one, the
caretaker restores to it and keeps the list (also on failure); otherwise
it pops the most recent (`current`), restores to the new last (`prev`),
and on failure pushes `current` back, so the list is exactly as before
the call. -/
def caretakerUndo {T : Type} (ok : T → Bool) (ms : List T) :
    List T × UndoOutcome T :=
  if ms.length = 0 then (ms, .empty)
  else if ms.length = 1 then
    match ms.head? with
    | some m => (ms, if ok m then .restored m else .failed m)
    | none => (ms, .empty)
  else
    match ms.reverse with
    | _current :: prev :: restRev =>
        if ok prev then ((prev :: restRev).reverse, .restored prev)
        else (ms, .failed prev)
    | _ => (ms, .empty)

/-- Oracle used by the C4 witness: restoration succeeds exactly on the
memento `1`. -/
def okOne : Nat → Bool := fun n => decide (n = 1)

end Care

namespace Heap

/-- Objects living on the heap of nested mutable sub-objects: the
`formatting` record of a `DocumentState`, and the `position`, `inventory`
and `skills` objects of a `CharacterState` (inventory items are
`(id, name, quantity)` triples). -/
inductive HVal where
  | fmt (f : Doc.Formatting)
  | pos (x y z : Int)
  | inv (items : List (String × String × Nat))
  | skl (skills : List (String × Nat))
deriving DecidableEq, Repr

/-- The heap of nested objects; references are indices into it. -/
abbrev Store := List HVal

/-- `DocumentState` as the JavaScript object graph stores it: primitive
fields inline, the nested `formatting` object by reference. -/
structure DocStateObj where
  content : String
  cursorPosition : Nat
  selectionLength : Nat
  formatting : Nat
deriving DecidableEq, Repr

/-- `CharacterState` as the object graph stores it: primitive fields
inline, the nested `position`, `inventory` and `skills` objects by
reference. -/
structure CharStateObj where
  name : String
  level : Nat
  health : Nat
  mana : Nat
  position : Nat
  inventory : Nat
  skills : Nat
deriving DecidableEq, Repr

/-- Mutation of a nested object in place: overwrite the heap cell. -/
def writeStore (σ : Store) (r : Nat) (v : HVal) : Store :=
  σ.set r v

/-- `JSON.parse(JSON.stringify(s))` on a document state: a deep copy that
allocates a fresh cell for the nested formatting object (a dangling
reference, on which the source serialization could not produce the
nested object, copies nothing). -/
def jsonCopyDoc (s : DocStateObj) (σ : Store) : DocStateObj × Store :=
  match σ[s.formatting]? with
  | some v => ({ s with formatting := σ.length }, σ ++ [v])
  | none => (s, σ)

/-- `JSON.parse(JSON.stringify(s))` on a character state: a deep copy that
allocates fresh cells for the three nested objects. -/
def jsonCopyChar (s : CharStateObj) (σ : Store) : CharStateObj × Store :=
  match σ[s.position]?, σ[s.inventory]?, σ[s.skills]? with
  | some pv, some iv, some sv =>
      ({ s with position := σ.length, inventory := σ.length + 1, skills := σ.length + 2 },
        σ ++ [pv, iv, sv])
  | _, _, _ => (s, σ)

/-- `Memento<DocumentState>`: holds its captured state. -/
structure MementoObj where
  state : DocStateObj
deriving DecidableEq, Repr

/-- `Originator<DocumentState>`: holds its live state. -/
structure OriginatorObj where
  state : DocStateObj
deriving DecidableEq, Repr

/-- `TextDocument`: holds its live state. -/
structure TextDocumentObj where
  state : DocStateObj
deriving DecidableEq, Repr

/-- `GameCharacter`: holds its live state. -/
structure GameCharacterObj where
  state : CharStateObj
deriving DecidableEq, Repr

/-- `Memento.getState`: `JSON.parse(JSON.stringify(this.state))`, a deep
copy. -/
def mementoGetState (m : MementoObj) (σ : Store) : DocStateObj × Store :=
  jsonCopyDoc m.state σ

/-- `Originator.getState`: `this.deepCopy(this.state)`, a JSON round-trip
deep copy. -/
def originatorGetState (o : OriginatorObj) (σ : Store) : DocStateObj × Store :=
  jsonCopyDoc o.state σ

/-- `Originator.save`: wrap a deep copy of the current state in a new
`Memento`. -/
def originatorSave (o : OriginatorObj) (σ : Store) : MementoObj × Store :=
  (⟨(jsonCopyDoc o.state σ).1⟩, (jsonCopyDoc o.state σ).2)

/-- `TextDocument.getState`: `{...this.state}`, a shallow spread copy: a
new top-level object whose `formatting` field is the same reference. -/
def textDocumentGetState (t : TextDocumentObj) (σ : Store) : DocStateObj × Store :=
  (t.state, σ)

/-- `GameCharacter.getState`: `JSON.parse(JSON.stringify(this.state))`, a
deep copy. -/
def gameCharacterGetState (c : GameCharacterObj) (σ : Store) : CharStateObj × Store :=
  jsonCopyChar c.state σ

/-- Observable value of a document state under a heap: the primitive
fields together with the contents of the referenced formatting object. -/
def observeDoc (σ : Store) (s : DocStateObj) : String × Nat × Nat × Option HVal :=
  (s.content, s.cursorPosition, s.selectionLength, σ[s.formatting]?)

/-- Observable value of a character state under a heap. -/
def observeChar (σ : Store) (s : CharStateObj) :
    String × Nat × Nat × Nat × Option HVal × Option HVal × Option HVal :=
  (s.name, s.level, s.health, s.mana, σ[s.position]?, σ[s.inventory]?, σ[s.skills]?)

/-- Sample formatting objects and heap for the C3 theorems. -/
def fmtA : Doc.Formatting :=
  { isBold := false, isItalic := false, fontSize := 12, fontFamily := "Arial" }

/-- The mutated formatting object (bold turned on). -/
def fmtB : Doc.Formatting :=
  { isBold := true, isItalic := false, fontSize := 12, fontFamily := "Arial" }

/-- A one-cell heap holding the sample formatting object. -/
def storeEx : Store := [HVal.fmt fmtA]

/-- A text document whose state references the sample formatting cell. -/
def tdEx : TextDocumentObj := ⟨⟨"", 0, 0, 0⟩⟩

/-- A memento over the same state, for the C3 witness. -/
def memEx : MementoObj := ⟨⟨"", 0, 0, 0⟩⟩

/-- An originator over the same state, for the C3 witness. -/
def origEx : OriginatorObj := ⟨⟨"", 0, 0, 0⟩⟩

/-- A character whose position, inventory and skills live in cells
0, 1, 2, for the C3 witness. -/
def charEx : GameCharacterObj := ⟨⟨"Hero", 1, 100, 50, 0, 1, 2⟩⟩

/-- A three-cell heap for the character witness. -/
def storeChar : Store := [HVal.pos 0 0 0, HVal.inv [], HVal.skl []]

end Heap

namespace Doc

theorem saveState_maxHistorySize (h : DocumentHistory) (d : DocumentState) :
    (saveState h d).maxHistorySize = h.maxHistorySize := by
  simp only [saveState]
  split <;> split <;> rfl

theorem undo_mementos (h : DocumentHistory) (d : DocumentState) :
    ((undo h d).1.1).mementos = h.mementos := by
  unfold undo
  split <;> rfl

theorem redo_mementos (h : DocumentHistory) (d : DocumentState) :
    ((redo h d).1.1).mementos = h.mementos := by
  unfold redo
  split <;> rfl

theorem undo_maxHistorySize (h : DocumentHistory) (d : DocumentState) :
    ((undo h d).1.1).maxHistorySize = h.maxHistorySize := by
  unfold undo
  split <;> rfl

theorem redo_maxHistorySize (h : DocumentHistory) (d : DocumentState) :
    ((redo h d).1.1).maxHistorySize = h.maxHistorySize := by
  unfold redo
  split <;> rfl

theorem tail_append_left {α : Type} (l₁ l₂ : List α) (h : l₁ ≠ []) :
    (l₁ ++ l₂).tail = l₁.tail ++ l₂ := by
  cases l₁ with
  | nil => exact absurd rfl h
  | cons a t => rfl

theorem mkHistory_eq (d : DocumentState) (m : Nat) (hm : 1 ≤ m) :
    mkHistory d m = ⟨[d], 0, m⟩ := by
  simp only [mkHistory, saveState]
  norm_num
  omega

theorem saveState_currentIndex_last (h : DocumentHistory) (d : DocumentState) :
    (saveState h d).currentIndex = (((saveState h d).mementos.length : Int)) - 1 := by
  simp only [saveState]
  generalize (if h.currentIndex < (h.mementos.length : Int) - 1 then
      h.mementos.take (h.currentIndex + 1).toNat else h.mementos) = t
  split
  · simp only [List.length_tail, List.length_append, List.length_cons, List.length_nil]
    push_cast
    omega
  · rfl

theorem canRedo_saveState (h : DocumentHistory) (d : DocumentState) :
    canRedo (saveState h d) = false := by
  have hlast := saveState_currentIndex_last h d
  simp [canRedo, hlast]

end Doc

namespace Doc

theorem saveState_shape (h : DocumentHistory) (d : DocumentState)
    (h0 : 0 ≤ h.currentIndex) (h1 : h.currentIndex < (h.mementos.length : Int))
    (hmax : 2 ≤ h.maxHistorySize) :
    ∃ p : List DocumentState,
      (saveState h d).mementos = p ++ [d] ∧
      (saveState h d).currentIndex = (p.length : Int) ∧
      1 ≤ p.length := by
  obtain ⟨k, hk⟩ : ∃ k : Nat, h.currentIndex = (k : Int) :=
    ⟨h.currentIndex.toNat, (Int.toNat_of_nonneg h0).symm⟩
  have hkl : k < h.mementos.length := by
    rw [hk] at h1
    exact_mod_cast h1
  simp only [saveState]
  generalize hTT : (if h.currentIndex < (h.mementos.length : Int) - 1 then
      h.mementos.take (h.currentIndex + 1).toNat else h.mementos) = t
  have hT : t.length = k + 1 := by
    rw [← hTT]
    split
    · rename_i hc
      rw [List.length_take]
      rw [hk] at hc ⊢
      have h2 : ((k : Int) + 1).toNat = k + 1 := by omega
      rw [h2]
      have h3 : (k : Int) < (h.mementos.length : Int) - 1 := hc
      omega
    · rename_i hc
      rw [hk] at hc
      have h3 : ¬((k : Int) < (h.mementos.length : Int) - 1) := hc
      omega
  have htne : t ≠ [] := by
    intro hcon
    rw [hcon] at hT
    simp at hT
  split
  · rename_i hev
    have hlen : (t ++ [d]).length = k + 2 := by
      simp [List.length_append, hT]
    have hk1 : 1 ≤ k := by
      rw [hlen] at hev
      have : ((k : Int) + 2) > (h.maxHistorySize : Int) := by exact_mod_cast hev
      omega
    refine ⟨t.tail, tail_append_left t [d] htne, ?_, ?_⟩
    · have h4 : t.tail.length = k := by
        simp [List.length_tail, hT]
      rw [hlen, h4]
      push_cast
      ring
    · have h4 : t.tail.length = k := by
        simp [List.length_tail, hT]
      omega
  · refine ⟨t, rfl, ?_, ?_⟩
    · simp only [List.length_append, List.length_cons, List.length_nil, hT]
      push_cast
      ring
    · omega

theorem saveState_snoc_shape (h : DocumentHistory) (x d : DocumentState)
    (p : List DocumentState) (hm : h.mementos = p ++ [x])
    (hc : h.currentIndex = (p.length : Int)) (hp : 1 ≤ p.length) :
    ∃ q : List DocumentState,
      (saveState h d).mementos = (q ++ [x]) ++ [d] ∧
      (saveState h d).currentIndex = (q.length : Int) + 1 := by
  have hpne : p ≠ [] := by
    intro hcon
    rw [hcon] at hp
    simp at hp
  have hcond : ¬(h.currentIndex < (h.mementos.length : Int) - 1) := by
    rw [hc, hm]
    simp only [List.length_append, List.length_cons, List.length_nil]
    push_cast
    omega
  simp only [saveState]
  rw [if_neg hcond, hm]
  split
  · refine ⟨p.tail, ?_, ?_⟩
    · rw [tail_append_left (p ++ [x]) [d] (by simp), tail_append_left p [x] hpne]
    · simp only [List.length_append, List.length_cons, List.length_nil, List.length_tail]
      omega
  · refine ⟨p, rfl, ?_⟩
    simp only [List.length_append, List.length_cons, List.length_nil]
    push_cast
    ring

end Doc

namespace Doc

theorem saveState_mem {h : DocumentHistory} {d m : DocumentState}
    (hm : m ∈ (saveState h d).mementos) : m ∈ h.mementos ∨ m = d := by
  simp only [saveState] at hm
  generalize hTT : (if h.currentIndex < (h.mementos.length : Int) - 1 then
      h.mementos.take (h.currentIndex + 1).toNat else h.mementos) = t at hm
  have hsub : ∀ y, y ∈ t → y ∈ h.mementos := by
    intro y hy
    rw [← hTT] at hy
    split at hy
    · exact List.take_subset _ _ hy
    · exact hy
  split at hm
  · have hm2 : m ∈ t ++ [d] := List.mem_of_mem_tail hm
    rcases List.mem_append.mp hm2 with h1 | h1
    · exact Or.inl (hsub m h1)
    · exact Or.inr (List.mem_singleton.mp h1)
  · rcases List.mem_append.mp hm with h1 | h1
    · exact Or.inl (hsub m h1)
    · exact Or.inr (List.mem_singleton.mp h1)

theorem restoreFromHistory_mem (h : DocumentHistory) (d : DocumentState) :
    restoreFromHistory h d ∈ h.mementos ∨ restoreFromHistory h d = d := by
  unfold restoreFromHistory
  split
  · rename_i m hm
    exact Or.inl (List.getElem?_mem hm)
  · exact Or.inr rfl

theorem undo_doc_mem (h : DocumentHistory) (d : DocumentState) :
    (undo h d).1.2 ∈ h.mementos ∨ (undo h d).1.2 = d := by
  unfold undo
  split
  · exact restoreFromHistory_mem _ d
  · exact Or.inr rfl

theorem redo_doc_mem (h : DocumentHistory) (d : DocumentState) :
    (redo h d).1.2 ∈ h.mementos ∨ (redo h d).1.2 = d := by
  unfold redo
  split
  · exact restoreFromHistory_mem _ d
  · exact Or.inr rfl

theorem reachable_seen {h : DocumentHistory} {d : DocumentState}
    {seen : List DocumentState} (hr : Reachable h d seen) :
    d ∈ seen ∧ ∀ m ∈ h.mementos, m ∈ seen := by
  induction hr with
  | init d0 m0 =>
      refine ⟨List.mem_singleton.mpr rfl, ?_⟩
      intro m hm
      rcases saveState_mem hm with h1 | h1
      · simp at h1
      · simp [h1]
  | mutate d' hr ih =>
      exact ⟨List.mem_cons_self _ _, fun m hm => List.mem_cons_of_mem _ (ih.2 m hm)⟩
  | save hr ih =>
      refine ⟨ih.1, fun m hm => ?_⟩
      rcases saveState_mem hm with h1 | h1
      · exact ih.2 m h1
      · rw [h1]
        exact ih.1
  | undoStep hr ih =>
      refine ⟨?_, ?_⟩
      · rcases undo_doc_mem _ _ with h1 | h1
        · exact ih.2 _ h1
        · rw [h1]
          exact ih.1
      · rw [undo_mementos]
        exact ih.2
  | redoStep hr ih =>
      refine ⟨?_, ?_⟩
      · rcases redo_doc_mem _ _ with h1 | h1
        · exact ih.2 _ h1
        · rw [h1]
          exact ih.1
      · rw [redo_mementos]
        exact ih.2

end Doc

namespace Doc

theorem saveState_bounds (h : DocumentHistory) (d : DocumentState)
    (h0 : 0 ≤ h.currentIndex) (h1 : h.currentIndex < (h.mementos.length : Int))
    (h2 : h.mementos.length ≤ h.maxHistorySize) :
    0 ≤ (saveState h d).currentIndex ∧
    (saveState h d).currentIndex < ((saveState h d).mementos.length : Int) ∧
    (saveState h d).mementos.length ≤ h.maxHistorySize := by
  obtain ⟨k, hk⟩ : ∃ k : Nat, h.currentIndex = (k : Int) :=
    ⟨h.currentIndex.toNat, (Int.toNat_of_nonneg h0).symm⟩
  have hkl : k < h.mementos.length := by
    rw [hk] at h1
    exact_mod_cast h1
  simp only [saveState]
  generalize hTT : (if h.currentIndex < (h.mementos.length : Int) - 1 then
      h.mementos.take (h.currentIndex + 1).toNat else h.mementos) = t
  have hT : t.length = k + 1 := by
    rw [← hTT]
    split
    · rename_i hc
      rw [List.length_take]
      rw [hk] at hc ⊢
      have hc2 : ((k : Int) + 1).toNat = k + 1 := by omega
      rw [hc2]
      have hc3 : (k : Int) < (h.mementos.length : Int) - 1 := hc
      omega
    · rename_i hc
      rw [hk] at hc
      have hc3 : ¬((k : Int) < (h.mementos.length : Int) - 1) := hc
      omega
  split
  · rename_i hev
    simp only [List.length_tail, List.length_append, List.length_cons, List.length_nil, hT]
    refine ⟨by omega, by omega, by omega⟩
  · rename_i hev
    simp only [List.length_append, List.length_cons, List.length_nil, hT] at hev ⊢
    have hev2 : ¬((k + 2 : Int) > (h.maxHistorySize : Int)) := by
      push_cast at hev ⊢
      omega
    refine ⟨by omega, by push_cast; omega, by omega⟩

theorem undo_bounds (h : DocumentHistory) (d : DocumentState)
    (h0 : 0 ≤ h.currentIndex) (h1 : h.currentIndex < (h.mementos.length : Int)) :
    0 ≤ (undo h d).1.1.currentIndex ∧
    (undo h d).1.1.currentIndex < (((undo h d).1.1.mementos.length : Int)) := by
  unfold undo
  split
  · rename_i hpos
    constructor
    · simp only
      omega
    · simp only
      omega
  · exact ⟨h0, h1⟩

theorem redo_bounds (h : DocumentHistory) (d : DocumentState)
    (h0 : 0 ≤ h.currentIndex) (h1 : h.currentIndex < (h.mementos.length : Int)) :
    0 ≤ (redo h d).1.1.currentIndex ∧
    (redo h d).1.1.currentIndex < (((redo h d).1.1.mementos.length : Int)) := by
  unfold redo
  split
  · rename_i hlt
    constructor
    · simp only
      omega
    · simp only
      omega
  · exact ⟨h0, h1⟩

theorem reachable_bounds {h : DocumentHistory} {d : DocumentState}
    {seen : List DocumentState} (hr : Reachable h d seen) :
    1 ≤ h.maxHistorySize →
    0 ≤ h.currentIndex ∧ h.currentIndex < (h.mementos.length : Int) ∧
    h.mementos.length ≤ h.maxHistorySize := by
  induction hr with
  | init d0 m0 =>
      intro hmax
      have hm0 : (mkHistory d0 m0).maxHistorySize = m0 := by
        unfold mkHistory
        rw [saveState_maxHistorySize]
      rw [hm0] at hmax
      rw [mkHistory_eq d0 m0 hmax]
      simpa using hmax
  | mutate d' hr ih =>
      exact ih
  | save hr ih =>
      intro hmax
      rw [saveState_maxHistorySize] at hmax ⊢
      obtain ⟨i0, i1, i2⟩ := ih hmax
      exact ⟨(saveState_bounds _ _ i0 i1 i2).1, (saveState_bounds _ _ i0 i1 i2).2.1,
        (saveState_bounds _ _ i0 i1 i2).2.2⟩
  | undoStep hr ih =>
      intro hmax
      rw [undo_maxHistorySize] at hmax ⊢
      obtain ⟨i0, i1, i2⟩ := ih hmax
      refine ⟨(undo_bounds _ _ i0 i1).1, (undo_bounds _ _ i0 i1).2, ?_⟩
      rw [undo_mementos]
      exact i2
  | redoStep hr ih =>
      intro hmax
      rw [redo_maxHistorySize] at hmax ⊢
      obtain ⟨i0, i1, i2⟩ := ih hmax
      refine ⟨(redo_bounds _ _ i0 i1).1, (redo_bounds _ _ i0 i1).2, ?_⟩
      rw [redo_mementos]
      exact i2

end Doc

namespace Doc

theorem two_saves_undo_redo (h : DocumentHistory) (d d2 : DocumentState)
    (hr0 : 0 ≤ h.currentIndex) (hr1 : h.currentIndex < (h.mementos.length : Int))
    (hmax : 2 ≤ h.maxHistorySize) :
    (undo (saveState (saveState h d) d2) d2).2 = true ∧
    (undo (saveState (saveState h d) d2) d2).1.2 = d ∧
    (redo (undo (saveState (saveState h d) d2) d2).1.1
        (undo (saveState (saveState h d) d2) d2).1.2).2 = true ∧
    (redo (undo (saveState (saveState h d) d2) d2).1.1
        (undo (saveState (saveState h d) d2) d2).1.2).1.2 = d2 := by
  obtain ⟨p, hp1, hp2, hp3⟩ := saveState_shape h d hr0 hr1 hmax
  obtain ⟨q, hq1, hq2⟩ := saveState_snoc_shape (saveState h d) d d2 p hp1 hp2 hp3
  set h2 := saveState (saveState h d) d2 with hh2
  have hpos : 0 < h2.currentIndex := by
    rw [hq2]
    omega
  have hgetd : h2.mementos[(h2.currentIndex - 1).toNat]? = some d := by
    rw [hq1, hq2]
    have hidx : ((q.length : Int) + 1 - 1).toNat = q.length := by omega
    rw [hidx]
    rw [List.getElem?_append_left (by simp)]
    rw [List.getElem?_append_right (le_refl _)]
    simp
  have hundo : undo h2 d2 = (({h2 with currentIndex := h2.currentIndex - 1},
      restoreFromHistory {h2 with currentIndex := h2.currentIndex - 1} d2), true) := by
    unfold undo
    rw [if_pos hpos]
  have hrest : restoreFromHistory {h2 with currentIndex := h2.currentIndex - 1} d2 = d := by
    unfold restoreFromHistory
    simp only [hgetd]
  set h3 : DocumentHistory := {h2 with currentIndex := h2.currentIndex - 1} with hh3
  have hredopos : h3.currentIndex < ((h3.mementos.length : Int)) - 1 := by
    show h2.currentIndex - 1 < ((h2.mementos.length : Int)) - 1
    rw [hq2, hq1]
    simp only [List.length_append, List.length_cons, List.length_nil]
    push_cast
    omega
  have hgetd2 : h3.mementos[(h3.currentIndex + 1).toNat]? = some d2 := by
    show h2.mementos[(h2.currentIndex - 1 + 1).toNat]? = some d2
    rw [hq1, hq2]
    have hidx : ((q.length : Int) + 1 - 1 + 1).toNat = q.length + 1 := by omega
    rw [hidx]
    rw [List.getElem?_append_right (by simp)]
    simp
  have hredo : redo h3 d = (({h3 with currentIndex := h3.currentIndex + 1},
      restoreFromHistory {h3 with currentIndex := h3.currentIndex + 1} d), true) := by
    unfold redo
    rw [if_pos hredopos]
  have hrest2 : restoreFromHistory {h3 with currentIndex := h3.currentIndex + 1} d = d2 := by
    unfold restoreFromHistory
    simp only [hgetd2]
  refine ⟨?_, ?_, ?_, ?_⟩
  · rw [hundo]
  · rw [hundo]
    dsimp only
    exact hrest
  · rw [hundo]
    dsimp only
    rw [hrest, hredo]
  · rw [hundo]
    dsimp only
    rw [hrest, hredo]
    dsimp only
    exact hrest2

end Doc

namespace Heap

/-- Writing through a freshly allocated reference (at or beyond the old
heap length) never changes what an old reference reads. -/
theorem getElem?_write_fresh (σ ext : Store) (r r' : Nat) (v : HVal)
    (hr : r < σ.length) (hr' : σ.length ≤ r') :
    (writeStore (σ ++ ext) r' v)[r]? = σ[r]? := by
  unfold writeStore
  rw [List.getElem?_set_ne (by omega)]
  exact List.getElem?_append_left hr


end Heap

/-- C2: the arithmetic parser applies two-level operator precedence (`+`, `-`
looser than `*`, `/`): parsing `"a + b * c"` yields exactly the tree
`AddExpression(a, MultiplyExpression(b, c))`, and interpreting that tree in
the context `{a: 10, b: 5, c: 7}` yields `45`; hence
`parse("a + b * c").interpret(ctx) = 45`, the same value as the manually
built tree. -/
theorem arith_parse_two_level_precedence :
    Arith.parse "a + b * c" =
      Except.ok (Arith.AExpr.add (Arith.AExpr.vr "a")
        (Arith.AExpr.mul (Arith.AExpr.vr "b") (Arith.AExpr.vr "c"))) ∧
    Arith.interpret
      (Arith.AExpr.add (Arith.AExpr.vr "a")
        (Arith.AExpr.mul (Arith.AExpr.vr "b") (Arith.AExpr.vr "c")))
      [("a", 10), ("b", 5), ("c", 7)] = Except.ok 45 := by
  refine ⟨by decide, ?_⟩
  show Except.ok ((10 : ℚ) + 5 * 7) = Except.ok 45
  norm_num

/-- C6: for every expression tree `x` (including trees whose own evaluation
would fail) and every context, `DivideExpression(x, NumberExpression(0))`
fails with the `Division by zero` error and never returns a numeric result:
`DivideExpression.interpret` evaluates the divisor first and raises before
ever evaluating `x`. -/
theorem divide_by_zero_literal_always_fails (x : Arith.AExpr) (ctx : Arith.Ctx) :
    Arith.interpret (Arith.AExpr.div x (Arith.AExpr.num 0)) ctx =
      Except.error Arith.AErr.divisionByZero := by
  simp [Arith.interpret, Bind.bind, Except.bind]

/-- C8 (divergence): parsing the empty string or whitespace-only input does
not fail with `Empty expression`. JavaScript `"".split(/\s+/)` returns
`[""]`, so the token array is never empty: the guard in `parseExpression`
(shown unreachable-from-`parse` in the last conjunct by exhibiting it only
for the literally empty token array) is bypassed, `Number("")` is `0`, and
`parse("")` returns `NumberExpression(0)`. -/
theorem arith_parse_empty_input_returns_zero :
    Arith.tokenize "" = [""] ∧
    Arith.tokenize "   " = [""] ∧
    Arith.parse "" = Except.ok (Arith.AExpr.num 0) ∧
    Arith.parse "   " = Except.ok (Arith.AExpr.num 0) ∧
    Arith.parseExpression [] = Except.error Arith.AErr.emptyExpression := by
  refine ⟨by decide, by decide, by decide, by decide, by decide⟩

/-- C9 (divergence): the arithmetic parser has no parenthesis handling
(`parseTerm` turns `"("` into a variable named `"("` and `parse` discards
the remaining tokens), so `parse("(a+b)/(c-2)")` returns
`VariableExpression("(")`, whose interpretation in `{a: 10, b: 5, c: 7}`
fails with `Variable ( not defined` instead of evaluating to `3`. -/
theorem arith_parse_paren_scenario_fails :
    Arith.parse "(a+b)/(c-2)" = Except.ok (Arith.AExpr.vr "(") ∧
    Arith.interpret (Arith.AExpr.vr "(") [("a", 10), ("b", 5), ("c", 7)] =
      Except.error (Arith.AErr.undefinedVariable "(") := by
  refine ⟨by decide, by decide⟩

/-- C7 (counterexample): the boolean parser does not make NOT bind
tightest. For the input `"NOT x AND y"` (an instance of `"NOT v AND w"`),
the parsed tree disagrees semantically with
`AndExpression(NotExpression(x), y)`: under `{x: false, y: false}` the
parsed tree evaluates to `true` while the claimed tree evaluates to
`false`, and the parsed tree is structurally `NOT (x AND y)`. -/
theorem bool_parse_not_tightest_counterexample :
    BoolI.parseBool "NOT x AND y" =
      BoolI.BExpr.notb (BoolI.BExpr.andb (BoolI.BExpr.vrb "x") (BoolI.BExpr.vrb "y")) ∧
    BoolI.interpret (BoolI.parseBool "NOT x AND y") [("x", false), ("y", false)] =
      Except.ok true ∧
    BoolI.interpret
      (BoolI.BExpr.andb (BoolI.BExpr.notb (BoolI.BExpr.vrb "x")) (BoolI.BExpr.vrb "y"))
      [("x", false), ("y", false)] = Except.ok false := by
  refine ⟨by decide, by decide, by decide⟩

/-- C7 (amended): in the boolean parser a leading `NOT` is handled before
the OR/AND searches, so it applies to the entire remaining expression
(binds loosest, not tightest): `parse("NOT v AND w")` returns
`NotExpression(AndExpression(v, w))`, shown here for the variable pairs
`x, y` and `p, q`. -/
theorem bool_parse_leading_not_scopes_rest :
    BoolI.parseBool "NOT x AND y" =
      BoolI.BExpr.notb (BoolI.BExpr.andb (BoolI.BExpr.vrb "x") (BoolI.BExpr.vrb "y")) ∧
    BoolI.parseBool "NOT p AND q" =
      BoolI.BExpr.notb (BoolI.BExpr.andb (BoolI.BExpr.vrb "p") (BoolI.BExpr.vrb "q")) := by
  refine ⟨by decide, by decide⟩

/-- C1 (amended, maxHistorySize ≥ 2): starting from any reachable history
with `maxHistorySize ≥ 2`, after `saveState()`, a document change to `d2`
(content C1) and another `saveState()`, an `undo()` succeeds and leaves
the document with exactly the pre-change state `d` (in particular its
content); a subsequent `redo()` succeeds and restores `d2` exactly; and a
`saveState()` performed after the `undo()` leaves `canRedo()` false. -/
theorem history_undo_redo_laws (h : Doc.DocumentHistory) (d : Doc.DocumentState)
    (seen : List Doc.DocumentState) (hr : Doc.Reachable h d seen)
    (hmax : 2 ≤ h.maxHistorySize) (d2 : Doc.DocumentState) :
    (Doc.undo (Doc.saveState (Doc.saveState h d) d2) d2).2 = true ∧
    (Doc.undo (Doc.saveState (Doc.saveState h d) d2) d2).1.2.content = d.content ∧
    (Doc.undo (Doc.saveState (Doc.saveState h d) d2) d2).1.2 = d ∧
    (Doc.redo (Doc.undo (Doc.saveState (Doc.saveState h d) d2) d2).1.1
        (Doc.undo (Doc.saveState (Doc.saveState h d) d2) d2).1.2).2 = true ∧
    (Doc.redo (Doc.undo (Doc.saveState (Doc.saveState h d) d2) d2).1.1
        (Doc.undo (Doc.saveState (Doc.saveState h d) d2) d2).1.2).1.2 = d2 ∧
    ∀ d3, Doc.canRedo
        (Doc.saveState (Doc.undo (Doc.saveState (Doc.saveState h d) d2) d2).1.1 d3) = false := by
  have hmax1 : 1 ≤ h.maxHistorySize := by omega
  obtain ⟨i0, i1, i2⟩ := Doc.reachable_bounds hr hmax1
  obtain ⟨c1, c2, c3, c4⟩ := Doc.two_saves_undo_redo h d d2 i0 i1 hmax
  exact ⟨c1, by rw [c2], c2, c3, c4, fun d3 => Doc.canRedo_saveState _ d3⟩

/-- C1 witness: the laws at a concrete reachable history (a freshly
constructed history over the empty document, bound 2) and the concrete
change to content `"X"`. -/
theorem history_undo_redo_laws_witness :
    (Doc.undo (Doc.saveState (Doc.saveState (Doc.mkHistory Doc.exampleDoc 2) Doc.exampleDoc)
        Doc.exampleDocX) Doc.exampleDocX).2 = true ∧
    (Doc.undo (Doc.saveState (Doc.saveState (Doc.mkHistory Doc.exampleDoc 2) Doc.exampleDoc)
        Doc.exampleDocX) Doc.exampleDocX).1.2.content = Doc.exampleDoc.content ∧
    (Doc.undo (Doc.saveState (Doc.saveState (Doc.mkHistory Doc.exampleDoc 2) Doc.exampleDoc)
        Doc.exampleDocX) Doc.exampleDocX).1.2 = Doc.exampleDoc ∧
    (Doc.redo (Doc.undo (Doc.saveState (Doc.saveState (Doc.mkHistory Doc.exampleDoc 2)
          Doc.exampleDoc) Doc.exampleDocX) Doc.exampleDocX).1.1
        (Doc.undo (Doc.saveState (Doc.saveState (Doc.mkHistory Doc.exampleDoc 2) Doc.exampleDoc)
          Doc.exampleDocX) Doc.exampleDocX).1.2).2 = true ∧
    (Doc.redo (Doc.undo (Doc.saveState (Doc.saveState (Doc.mkHistory Doc.exampleDoc 2)
          Doc.exampleDoc) Doc.exampleDocX) Doc.exampleDocX).1.1
        (Doc.undo (Doc.saveState (Doc.saveState (Doc.mkHistory Doc.exampleDoc 2) Doc.exampleDoc)
          Doc.exampleDocX) Doc.exampleDocX).1.2).1.2 = Doc.exampleDocX ∧
    ∀ d3, Doc.canRedo (Doc.saveState
        (Doc.undo (Doc.saveState (Doc.saveState (Doc.mkHistory Doc.exampleDoc 2) Doc.exampleDoc)
          Doc.exampleDocX) Doc.exampleDocX).1.1 d3) = false :=
  history_undo_redo_laws (Doc.mkHistory Doc.exampleDoc 2) Doc.exampleDoc [Doc.exampleDoc]
    (Doc.Reachable.init Doc.exampleDoc 2) (by decide) Doc.exampleDocX

/-- C1 (counterexample at maxHistorySize 1): for the reachable history
freshly constructed over the empty document with `maxHistorySize = 1`,
the sequence `saveState(); content becomes "X"; saveState(); undo()`
leaves the document content `"X"` (the undo returns `false`), not the
pre-change content `""`: the second `saveState` evicted the only
snapshot holding the pre-change state. -/
theorem history_undo_law_fails_at_bound_one :
    (Doc.undo (Doc.saveState (Doc.saveState (Doc.mkHistory Doc.exampleDoc 1) Doc.exampleDoc)
        Doc.exampleDocX) Doc.exampleDocX).2 = false ∧
    (Doc.undo (Doc.saveState (Doc.saveState (Doc.mkHistory Doc.exampleDoc 1) Doc.exampleDoc)
        Doc.exampleDocX) Doc.exampleDocX).1.2.content = "X" ∧
    Doc.exampleDoc.content = "" ∧
    (Doc.mkHistory Doc.exampleDoc 1).maxHistorySize = 1 := by
  refine ⟨by decide, by decide, by decide, by decide⟩

/-- C5: for every configuration reachable from a DocumentHistory
constructed with `maxHistorySize ≥ 1`, the cursor is a valid index into
the snapshot sequence (which is never empty, so in particular it is valid
whenever at least one snapshot exists), and `undo`/`redo` never add or
remove snapshots. -/
theorem history_cursor_validity (h : Doc.DocumentHistory) (d : Doc.DocumentState)
    (seen : List Doc.DocumentState) (hr : Doc.Reachable h d seen)
    (hmax : 1 ≤ h.maxHistorySize) :
    (h.mementos ≠ [] ∧ 0 ≤ h.currentIndex ∧
      h.currentIndex < (h.mementos.length : Int)) ∧
    ((Doc.undo h d).1.1.mementos = h.mementos ∧
      (Doc.redo h d).1.1.mementos = h.mementos) := by
  obtain ⟨i0, i1, i2⟩ := Doc.reachable_bounds hr hmax
  refine ⟨⟨?_, i0, i1⟩, Doc.undo_mementos h d, Doc.redo_mementos h d⟩
  intro hcon
  rw [hcon] at i1
  simp at i1
  omega

/-- C5 witness: the invariant at the concrete freshly constructed history
over the empty document with bound 1. -/
theorem history_cursor_validity_witness :
    ((Doc.mkHistory Doc.exampleDoc 1).mementos ≠ [] ∧
      0 ≤ (Doc.mkHistory Doc.exampleDoc 1).currentIndex ∧
      (Doc.mkHistory Doc.exampleDoc 1).currentIndex <
        ((Doc.mkHistory Doc.exampleDoc 1).mementos.length : Int)) ∧
    ((Doc.undo (Doc.mkHistory Doc.exampleDoc 1) Doc.exampleDoc).1.1.mementos =
        (Doc.mkHistory Doc.exampleDoc 1).mementos ∧
      (Doc.redo (Doc.mkHistory Doc.exampleDoc 1) Doc.exampleDoc).1.1.mementos =
        (Doc.mkHistory Doc.exampleDoc 1).mementos) :=
  history_cursor_validity (Doc.mkHistory Doc.exampleDoc 1) Doc.exampleDoc
    [Doc.exampleDoc] (Doc.Reachable.init Doc.exampleDoc 1) (by decide)

/-- C10: constructing a DocumentHistory with `maxHistorySize ≥ 1`
immediately captures one snapshot of the initial document state: right
after construction the history holds exactly that snapshot, the cursor is
0, `canUndo()` and `canRedo()` are false, and `undo()` is a returns-false
no-op; moreover, in every reachable configuration the document state
produced by `undo()` is one the document has actually held since
construction, so undo can never reach a state earlier than construction. -/
theorem history_constructor_initial_snapshot (d : Doc.DocumentState) (m : Nat)
    (hm : 1 ≤ m) :
    (Doc.mkHistory d m).mementos = [d] ∧
    (Doc.mkHistory d m).currentIndex = 0 ∧
    Doc.getHistorySize (Doc.mkHistory d m) = 1 ∧
    Doc.canUndo (Doc.mkHistory d m) = false ∧
    Doc.canRedo (Doc.mkHistory d m) = false ∧
    Doc.undo (Doc.mkHistory d m) d = ((Doc.mkHistory d m, d), false) ∧
    (∀ h' d' seen, Doc.Reachable h' d' seen → (Doc.undo h' d').1.2 ∈ seen) := by
  have he := Doc.mkHistory_eq d m hm
  refine ⟨by rw [he], by rw [he], ?_, ?_, ?_, ?_, ?_⟩
  · rw [Doc.getHistorySize, he]
    rfl
  · rw [Doc.canUndo, he]
    rfl
  · rw [Doc.canRedo, he]
    rfl
  · rw [he]
    unfold Doc.undo
    rw [if_neg (by simp)]
  · intro h' d' seen hr
    rcases Doc.undo_doc_mem h' d' with h1 | h1
    · exact (Doc.reachable_seen hr).2 _ h1
    · rw [h1]
      exact (Doc.reachable_seen hr).1

/-- C10 witness: the construction facts at the concrete empty document
with bound 1. -/
theorem history_constructor_initial_snapshot_witness :
    (Doc.mkHistory Doc.exampleDoc 1).mementos = [Doc.exampleDoc] ∧
    (Doc.mkHistory Doc.exampleDoc 1).currentIndex = 0 ∧
    Doc.getHistorySize (Doc.mkHistory Doc.exampleDoc 1) = 1 ∧
    Doc.canUndo (Doc.mkHistory Doc.exampleDoc 1) = false ∧
    Doc.canRedo (Doc.mkHistory Doc.exampleDoc 1) = false ∧
    Doc.undo (Doc.mkHistory Doc.exampleDoc 1) Doc.exampleDoc =
      ((Doc.mkHistory Doc.exampleDoc 1, Doc.exampleDoc), false) ∧
    (∀ h' d' seen, Doc.Reachable h' d' seen → (Doc.undo h' d').1.2 ∈ seen) :=
  history_constructor_initial_snapshot Doc.exampleDoc 1 (by decide)

/-- C4: `Caretaker.undo` policy. With exactly one snapshot, the originator
is restored to it (successfully or not) and the sequence is unchanged;
with more than one (written `p ++ [a, b]`, newest last), the most recent
snapshot `b` is removed and the originator restored to the new most
recent `a`; and if that restoration throws, the removed snapshot is
pushed back so the sequence is exactly as before the call and the
failure is reported as the outcome. -/
theorem caretaker_undo_policy {T : Type} (ok : T → Bool) :
    (∀ m : T, Care.caretakerUndo ok [m] =
      ([m], if ok m then Care.UndoOutcome.restored m else Care.UndoOutcome.failed m)) ∧
    (∀ (p : List T) (a b : T),
      (ok a = true →
        Care.caretakerUndo ok (p ++ [a, b]) = (p ++ [a], Care.UndoOutcome.restored a)) ∧
      (ok a = false →
        Care.caretakerUndo ok (p ++ [a, b]) = (p ++ [a, b], Care.UndoOutcome.failed a))) := by
  constructor
  · intro m
    simp [Care.caretakerUndo]
  · intro p a b
    have hlen0 : (p ++ [a, b]).length = p.length + 2 := by simp
    have hrev : (p ++ [a, b]).reverse = b :: a :: p.reverse := by simp
    constructor <;> intro hok <;>
      simp [Care.caretakerUndo, hlen0, hrev, hok]

/-- C4 witness: the three branches at concrete inputs with the `okOne`
oracle (restore succeeds only on memento `1`): a failing single-snapshot
restore keeps `[5]`; popping from `[0, 1, 2]` restores `1` and keeps
`[0, 1]`; a failing restore of `2` from `[0, 2, 1]` leaves the list
exactly as before. -/
theorem caretaker_undo_policy_witness :
    Care.caretakerUndo Care.okOne [5] = ([5], Care.UndoOutcome.failed 5) ∧
    Care.caretakerUndo Care.okOne ([0] ++ [1, 2]) =
      ([0] ++ [1], Care.UndoOutcome.restored 1) ∧
    Care.caretakerUndo Care.okOne ([0] ++ [2, 1]) =
      ([0] ++ [2, 1], Care.UndoOutcome.failed 2) :=
  ⟨by simpa using (caretaker_undo_policy Care.okOne).1 5,
    ((caretaker_undo_policy Care.okOne).2 [0] 1 2).1 (by decide),
    ((caretaker_undo_policy Care.okOne).2 [0] 2 1).2 (by decide)⟩

/-- C3 (counterexample): `TextDocument.getState()` is the shallow spread
`{...this.state}`, so the returned object shares the nested `formatting`
object with the document. Mutating that nested object through the
returned copy (turning bold on) changes the state subsequently retrieved
from the document, violating snapshot isolation. -/
theorem snapshot_isolation_counterexample :
    Heap.observeDoc
        (Heap.writeStore (Heap.textDocumentGetState Heap.tdEx Heap.storeEx).2
          (Heap.textDocumentGetState Heap.tdEx Heap.storeEx).1.formatting
          (Heap.HVal.fmt Heap.fmtB))
        Heap.tdEx.state ≠
      Heap.observeDoc Heap.storeEx Heap.tdEx.state := by
  decide

/-- C3 (amended): snapshot isolation holds for the JSON-round-trip deep
copies — `Memento.getState`, `Originator.getState`, `Originator.save`
and `GameCharacter.getState`: mutating the nested objects of the
returned copy (writing through its fresh references) never changes the
state subsequently retrieved through the original object. It fails only
for `TextDocument.getState`, whose spread copy shares the nested
formatting object (see the counterexample). -/
theorem snapshot_isolation_deep_copy (σ : Heap.Store) :
    (∀ m : Heap.MementoObj, m.state.formatting < σ.length → ∀ w,
      Heap.observeDoc
          (Heap.writeStore (Heap.mementoGetState m σ).2
            (Heap.mementoGetState m σ).1.formatting w) m.state =
        Heap.observeDoc σ m.state) ∧
    (∀ o : Heap.OriginatorObj, o.state.formatting < σ.length → ∀ w,
      Heap.observeDoc
          (Heap.writeStore (Heap.originatorGetState o σ).2
            (Heap.originatorGetState o σ).1.formatting w) o.state =
        Heap.observeDoc σ o.state) ∧
    (∀ o : Heap.OriginatorObj, o.state.formatting < σ.length → ∀ w,
      Heap.observeDoc
          (Heap.writeStore (Heap.originatorSave o σ).2
            (Heap.originatorSave o σ).1.state.formatting w) o.state =
        Heap.observeDoc σ o.state) ∧
    (∀ c : Heap.GameCharacterObj,
      c.state.position < σ.length → c.state.inventory < σ.length →
      c.state.skills < σ.length → ∀ w,
      Heap.observeChar
          (Heap.writeStore (Heap.gameCharacterGetState c σ).2
            (Heap.gameCharacterGetState c σ).1.position w) c.state =
        Heap.observeChar σ c.state ∧
      Heap.observeChar
          (Heap.writeStore (Heap.gameCharacterGetState c σ).2
            (Heap.gameCharacterGetState c σ).1.inventory w) c.state =
        Heap.observeChar σ c.state ∧
      Heap.observeChar
          (Heap.writeStore (Heap.gameCharacterGetState c σ).2
            (Heap.gameCharacterGetState c σ).1.skills w) c.state =
        Heap.observeChar σ c.state) := by
  have docCase : ∀ s : Heap.DocStateObj, s.formatting < σ.length → ∀ w,
      Heap.observeDoc
          (Heap.writeStore (Heap.jsonCopyDoc s σ).2 (Heap.jsonCopyDoc s σ).1.formatting w)
          s =
        Heap.observeDoc σ s := by
    intro s hr w
    have hsome : σ[s.formatting]? = some σ[s.formatting] := List.getElem?_eq_getElem hr
    simp only [Heap.jsonCopyDoc, hsome, Heap.observeDoc]
    rw [Heap.getElem?_write_fresh σ _ s.formatting σ.length w hr (le_refl _), hsome]
  refine ⟨fun m => docCase m.state, fun o => docCase o.state, fun o => docCase o.state, ?_⟩
  intro c h1 h2 h3 w
  have hp : σ[c.state.position]? = some σ[c.state.position] := List.getElem?_eq_getElem h1
  have hi : σ[c.state.inventory]? = some σ[c.state.inventory] := List.getElem?_eq_getElem h2
  have hs : σ[c.state.skills]? = some σ[c.state.skills] := List.getElem?_eq_getElem h3
  simp only [Heap.gameCharacterGetState, Heap.jsonCopyChar, hp, hi, hs, Heap.observeChar]
  refine ⟨?_, ?_, ?_⟩ <;>
    rw [Heap.getElem?_write_fresh σ _ c.state.position _ w h1 (by omega),
      Heap.getElem?_write_fresh σ _ c.state.inventory _ w h2 (by omega),
      Heap.getElem?_write_fresh σ _ c.state.skills _ w h3 (by omega), hp, hi, hs]

/-- C3 witness: the deep-copy isolation at concrete heaps: the memento,
originator (both operations) and character copies are mutated (bold
formatting, respectively a new position object) without affecting the
originals. -/
theorem snapshot_isolation_deep_copy_witness :
    (Heap.observeDoc
        (Heap.writeStore (Heap.mementoGetState Heap.memEx Heap.storeEx).2
          (Heap.mementoGetState Heap.memEx Heap.storeEx).1.formatting
          (Heap.HVal.fmt Heap.fmtB)) Heap.memEx.state =
      Heap.observeDoc Heap.storeEx Heap.memEx.state) ∧
    (Heap.observeDoc
        (Heap.writeStore (Heap.originatorGetState Heap.origEx Heap.storeEx).2
          (Heap.originatorGetState Heap.origEx Heap.storeEx).1.formatting
          (Heap.HVal.fmt Heap.fmtB)) Heap.origEx.state =
      Heap.observeDoc Heap.storeEx Heap.origEx.state) ∧
    (Heap.observeDoc
        (Heap.writeStore (Heap.originatorSave Heap.origEx Heap.storeEx).2
          (Heap.originatorSave Heap.origEx Heap.storeEx).1.state.formatting
          (Heap.HVal.fmt Heap.fmtB)) Heap.origEx.state =
      Heap.observeDoc Heap.storeEx Heap.origEx.state) ∧
    (Heap.observeChar
        (Heap.writeStore (Heap.gameCharacterGetState Heap.charEx Heap.storeChar).2
          (Heap.gameCharacterGetState Heap.charEx Heap.storeChar).1.position
          (Heap.HVal.pos 1 2 3)) Heap.charEx.state =
      Heap.observeChar Heap.storeChar Heap.charEx.state) :=
  ⟨(snapshot_isolation_deep_copy Heap.storeEx).1 Heap.memEx (by decide) _,
    (snapshot_isolation_deep_copy Heap.storeEx).2.1 Heap.origEx (by decide) _,
    (snapshot_isolation_deep_copy Heap.storeEx).2.2.1 Heap.origEx (by decide) _,
    ((snapshot_isolation_deep_copy Heap.storeChar).2.2.2 Heap.charEx (by decide) (by decide)
      (by decide) (Heap.HVal.pos 1 2 3)).1⟩
